import Mathlib

/-
  Verification development for the leetcode-tracker repository.

  The embedding translates the review-scheduling core of the program:
  - SpacedRepetitionService.calculateNextReview (backend/src/utils/spacedRepetition.ts)
  - QuestionService (backend/src/services/questionService.ts): createQuestion,
    updateQuestion, deleteQuestion, completeQuestion, reviewQuestion,
    resetQuestion, getDueQuestions, initialize
  - the frontend due classifiers isDueForReview, isOverdue, getDaysOverdue
    (src/utils/spacedRepetition.ts) and the ReviewQueue grouping logic
    (src/components/ReviewQueue.tsx).

  Modelling conventions:
  - A JavaScript Date instant is a DateTime: a local calendar day index (Int)
    plus the milliseconds elapsed since local midnight (Fin 86400000).
    JS setHours(0,0,0,0) maps to setting ms to 0; setDate(getDate() + n)
    maps to adding n to day.
  - A stored date-string field is a DateStr: absent (undefined or the empty
    string, both falsy in JS), the literal string value zero (which the
    backend special-cases), an unparseable string (new Date(s) is an
    Invalid Date, all comparisons with it are false), or a parseable string
    carrying the DateTime it denotes.
  - Service methods that mutate this.questions and may throw are embedded as
    functions Store to Store times Except StoreError Question, following the
    source line by line; a thrown error yields the unchanged input store.
-/

inductive Difficulty
  | easy
  | medium
  | hard
  deriving DecidableEq, Repr

inductive Status
  | not_started
  | completed
  | under_review
  | needs_attention
  deriving DecidableEq, Repr

/-- A JS Date instant: local calendar day index plus milliseconds past local
midnight. The millisecond component of a real Date is always below 86400000. -/
structure DateTime where
  day : Int
  ms : Fin 86400000
  deriving DecidableEq, Repr

/-- Model of an optional stored date string, quotiented by how new Date(s)
parses it: absent covers undefined and the empty string (both falsy),
zeroStr is the literal string value zero, invalid is any other unparseable
string, valid t is a string that parses to the instant t. -/
inductive DateStr
  | absent
  | zeroStr
  | invalid
  | valid (t : DateTime)
  deriving DecidableEq, Repr

def msPerDay : Int := 86400000

/-- Milliseconds since the local epoch reference, as getTime returns. -/
def toMillis (t : DateTime) : Int := t.day * msPerDay + (t.ms.val : Int)

/-- The interval table of SpacedRepetitionService (days). -/
def intervals : List Nat := [1, 3, 7, 14, 30, 90]

/-- SpacedRepetitionService.calculateNextReview: index is
min(reviewCount, intervals.length - 1), overridden to 0 when the difficulty
is hard; the result is now plus that many days, normalized to local midnight
by setHours(0,0,0,0). -/
def calculateNextReview (reviewCount : Nat) (difficulty : Difficulty) (now : DateTime) : DateTime :=
  let intervalIndex := min reviewCount (intervals.length - 1)
  let intervalIndex := if difficulty = Difficulty.hard then 0 else intervalIndex
  let daysToAdd := intervals.getD intervalIndex 0
  { day := now.day + daysToAdd, ms := 0 }

/-- A question record, fields as in the backend Question type and the CSV
adapter. Optional ISO date strings written by the service itself always
parse back, so firstCompleted and lastReviewed are plain Option DateTime;
nextReview keeps the full DateStr shape because the due classifiers also
consume hand-edited CSV values. -/
structure Question where
  id : Nat
  name : String
  category : String
  leetcodeUrl : String
  leetcodeDifficulty : Option String
  status : Status
  firstCompleted : Option DateTime
  lastReviewed : Option DateTime
  nextReview : DateStr
  reviewCount : Nat
  difficultyHistory : List Difficulty
  notes : String
  deriving DecidableEq, Repr

structure CreateQuestionRequest where
  name : String
  category : String
  leetcodeUrl : String
  leetcodeDifficulty : Option String
  notes : Option String
  deriving DecidableEq, Repr

/-- UpdateQuestionRequest as declared in src/services/api.ts: only name,
category, leetcodeUrl and notes may be supplied. -/
structure UpdateQuestionRequest where
  name : Option String
  category : Option String
  leetcodeUrl : Option String
  notes : Option String
  deriving DecidableEq, Repr

structure ReviewRequest where
  difficulty : Difficulty
  notes : Option String
  deriving DecidableEq, Repr

/-- The JS expression a or-else b for an optional string a: a non-empty
supplied string wins, an absent or empty (falsy) one keeps b. -/
def orNonempty (a : Option String) (b : String) : String :=
  match a with
  | some s => if s = "" then b else s
  | none => b

/-- QuestionService in-memory state: the questions array plus the nextId
counter. -/
structure Store where
  questions : List Question
  nextId : Nat
  deriving DecidableEq, Repr

inductive StoreError
  | notFound
  | duplicateUrl
  deriving DecidableEq, Repr

/-- Math.max(...ids, 0), as used by QuestionService.initialize. -/
def maxId (qs : List Question) : Nat :=
  qs.foldl (fun m q => max m q.id) 0

/-- QuestionService.initialize: adopt the loaded records and set nextId to
max(existing ids) + 1, which is 1 on an empty load. -/
def initStore (qs : List Question) : Store :=
  { questions := qs, nextId := maxId qs + 1 }

/-- this.questions[findIndex(q.id === id)] = newQ: replace the first record
carrying the given id. -/
def replaceById (qs : List Question) (id : Nat) (newQ : Question) : List Question :=
  match qs with
  | [] => []
  | q :: rest => if q.id = id then newQ :: rest else q :: replaceById rest id newQ

/-- this.questions.splice(findIndex(q.id === id), 1): drop the first record
carrying the given id. -/
def removeById (qs : List Question) (id : Nat) : List Question :=
  match qs with
  | [] => []
  | q :: rest => if q.id = id then rest else q :: removeById rest id

/-- The record literal built by QuestionService.createQuestion. -/
def newQuestion (id : Nat) (data : CreateQuestionRequest) : Question :=
  { id := id
    name := data.name
    category := data.category
    leetcodeUrl := data.leetcodeUrl
    leetcodeDifficulty := data.leetcodeDifficulty
    status := Status.not_started
    firstCompleted := none
    lastReviewed := none
    nextReview := DateStr.absent
    reviewCount := 0
    difficultyHistory := []
    notes := orNonempty data.notes "" }

/-- QuestionService.createQuestion: reject a duplicate url before any state
is touched, otherwise append a fresh record and consume the id counter. -/
def createQuestion (s : Store) (data : CreateQuestionRequest) :
    Store × Except StoreError Question :=
  match s.questions.find? (fun q => decide (q.leetcodeUrl = data.leetcodeUrl)) with
  | some _ => (s, Except.error StoreError.duplicateUrl)
  | none =>
      let question := newQuestion s.nextId data
      ({ questions := s.questions ++ [question], nextId := s.nextId + 1 },
       Except.ok question)

/-- The spread {...question, ...data} for an UpdateQuestionRequest: a key
present in data overwrites the field, an absent key keeps it. -/
def updateRecord (q : Question) (data : UpdateQuestionRequest) : Question :=
  { q with
    name := data.name.getD q.name
    category := data.category.getD q.category
    leetcodeUrl := data.leetcodeUrl.getD q.leetcodeUrl
    notes := data.notes.getD q.notes }

/-- QuestionService.updateQuestion: not-found check, then the duplicate-url
check (skipped when the supplied url is absent or empty, both falsy), then
the merge and in-place replacement. -/
def updateQuestion (s : Store) (id : Nat) (data : UpdateQuestionRequest) :
    Store × Except StoreError Question :=
  match s.questions.find? (fun q => decide (q.id = id)) with
  | none => (s, Except.error StoreError.notFound)
  | some q =>
      let dup : Bool :=
        match data.leetcodeUrl with
        | none => false
        | some u =>
            if u = "" then false
            else (s.questions.find? (fun q2 =>
              decide (q2.leetcodeUrl = u) && decide (¬ q2.id = id))).isSome
      if dup then (s, Except.error StoreError.duplicateUrl)
      else
        let updated := updateRecord q data
        ({ s with questions := replaceById s.questions id updated }, Except.ok updated)

/-- QuestionService.deleteQuestion: drop the record if present and report a
success flag. -/
def deleteQuestion (s : Store) (id : Nat) : Store × Bool :=
  match s.questions.find? (fun q => decide (q.id = id)) with
  | none => (s, false)
  | some _ => ({ s with questions := removeById s.questions id }, true)

/-- The updated record built by QuestionService.completeQuestion: status
under_review, firstCompleted kept when already set (truthy) else now,
lastReviewed now, nextReview from calculateNextReview(0, difficulty),
reviewCount overwritten with 1, difficultyHistory overwritten with the
single supplied difficulty, notes replaced only by a non-empty supplied
string. -/
def completeRecord (q : Question) (rd : ReviewRequest) (now : DateTime) : Question :=
  { q with
    status := Status.under_review
    firstCompleted := some (q.firstCompleted.getD now)
    lastReviewed := some now
    nextReview := DateStr.valid (calculateNextReview 0 rd.difficulty now)
    reviewCount := 1
    difficultyHistory := [rd.difficulty]
    notes := orNonempty rd.notes q.notes }

def completeQuestion (s : Store) (id : Nat) (rd : ReviewRequest) (now : DateTime) :
    Store × Except StoreError Question :=
  match s.questions.find? (fun q => decide (q.id = id)) with
  | none => (s, Except.error StoreError.notFound)
  | some q =>
      let updated := completeRecord q rd now
      ({ s with questions := replaceById s.questions id updated }, Except.ok updated)

/-- The in-place mutations of QuestionService.reviewQuestion: nextReview is
computed from the review count before the increment; the status becomes
needs_attention exactly for a hard rating. -/
def reviewRecord (q : Question) (rd : ReviewRequest) (now : DateTime) : Question :=
  { q with
    lastReviewed := some now
    nextReview := DateStr.valid (calculateNextReview q.reviewCount rd.difficulty now)
    reviewCount := q.reviewCount + 1
    difficultyHistory := q.difficultyHistory ++ [rd.difficulty]
    notes := orNonempty rd.notes q.notes
    status := if rd.difficulty = Difficulty.hard then Status.needs_attention
              else Status.under_review }

def reviewQuestion (s : Store) (id : Nat) (rd : ReviewRequest) (now : DateTime) :
    Store × Except StoreError Question :=
  match s.questions.find? (fun q => decide (q.id = id)) with
  | none => (s, Except.error StoreError.notFound)
  | some q =>
      let updated := reviewRecord q rd now
      ({ s with questions := replaceById s.questions id updated }, Except.ok updated)

/-- The in-place mutations of QuestionService.resetQuestion. -/
def resetRecord (q : Question) : Question :=
  { q with
    status := Status.not_started
    firstCompleted := none
    lastReviewed := none
    nextReview := DateStr.absent
    reviewCount := 0
    difficultyHistory := [] }

def resetQuestion (s : Store) (id : Nat) : Store × Except StoreError Question :=
  match s.questions.find? (fun q => decide (q.id = id)) with
  | none => (s, Except.error StoreError.notFound)
  | some q =>
      let updated := resetRecord q
      ({ s with questions := replaceById s.questions id updated }, Except.ok updated)

/-- How the backend getDueQuestions reads a nextReview field: undefined and
the empty string are falsy, the literal string value zero is explicitly
skipped, and an unparseable string is rejected by the isNaN guard. -/
def parseBackend : DateStr → Option DateTime
  | DateStr.absent => none
  | DateStr.zeroStr => none
  | DateStr.invalid => none
  | DateStr.valid t => some t

/-- reviewDateOnly <= today in QuestionService.getDueQuestions, with today
the local midnight of now; stripping the time leaves the day index. -/
def dueCheck (today : Int) (s : DateStr) : Bool :=
  match parseBackend s with
  | none => false
  | some t => decide (t.day ≤ today)

/-- reviewDateOnly < today in QuestionService.getDueQuestions. -/
def overdueCheck (today : Int) (s : DateStr) : Bool :=
  match parseBackend s with
  | none => false
  | some t => decide (t.day < today)

/-- reviewDateOnly.getTime() === today.getTime() in
QuestionService.getDueQuestions. -/
def dueTodayCheck (today : Int) (s : DateStr) : Bool :=
  match parseBackend s with
  | none => false
  | some t => decide (t.day = today)

/-- QuestionService.getDueQuestions: filter the records whose stripped review
date is at or before today, then split that due set into the due-today part
(returned as questions) and the overdue part. -/
def getDueQuestions (qs : List Question) (today : Int) :
    List Question × List Question :=
  let dueQuestions := qs.filter (fun q => dueCheck today q.nextReview)
  (dueQuestions.filter (fun q => dueTodayCheck today q.nextReview),
   dueQuestions.filter (fun q => overdueCheck today q.nextReview))

/-- In the Node runtime the frontend helpers run on, new Date applied to the
string value zero yields local midnight of 2000-01-01, day 10957 from the
1970-01-01 reference. -/
def jsDateOfZeroString : DateTime := { day := 10957, ms := 0 }

/-- How the frontend helpers read a nextReview string they receive: only the
absent case is filtered by the falsy guard; the string value zero has no
special case there and parses as jsDateOfZeroString; any comparison against
an Invalid Date is false, rendered here as parse failure. -/
def parseFrontend : DateStr → Option DateTime
  | DateStr.absent => none
  | DateStr.zeroStr => some jsDateOfZeroString
  | DateStr.invalid => none
  | DateStr.valid t => some t

/-- Frontend isDueForReview: new Date(nextReview) <= new Date(), a full
instant comparison without stripping the time of day. -/
def isDueForReview (nextReview : DateStr) (now : DateTime) : Bool :=
  match nextReview with
  | DateStr.absent => false
  | s =>
      match parseFrontend s with
      | none => false
      | some t => decide (toMillis t ≤ toMillis now)

/-- Frontend isOverdue: both sides are normalized with setHours(0,0,0,0)
before the strict comparison, so only the day indices matter. -/
def isOverdue (nextReview : DateStr) (now : DateTime) : Bool :=
  match nextReview with
  | DateStr.absent => false
  | s =>
      match parseFrontend s with
      | none => false
      | some t => decide (t.day < now.day)

/-- Frontend getDaysOverdue: 0 for an absent field, otherwise the floor of
the midnight-to-midnight difference in days; an unparseable string makes
every arithmetic step NaN, rendered as none. -/
def getDaysOverdue (nextReview : DateStr) (now : DateTime) : Option Int :=
  match nextReview with
  | DateStr.absent => some 0
  | s =>
      match parseFrontend s with
      | none => none
      | some t => some (now.day - t.day)

/-- The reviewQuestions pre-filter of ReviewQueue: status under_review and a
truthy nextReview. -/
def reviewEligible (q : Question) : Bool :=
  decide (q.status = Status.under_review) && decide (¬ q.nextReview = DateStr.absent)

def reviewQuestionsF (l : List Question) : List Question :=
  l.filter reviewEligible

/-- The sort key of the overdue section: getDaysOverdue of the record, which
the comparator only ever evaluates on parseable dates. -/
def overdueKey (now : DateTime) (q : Question) : Int :=
  (getDaysOverdue q.nextReview now).getD 0

/-- overdueQuestions in ReviewQueue: the overdue review questions, sorted by
days overdue descending (most overdue first); the JS stable sort is modelled
by insertion sort over the comparator relation. -/
def overdueQuestionsF (l : List Question) (now : DateTime) : List Question :=
  List.insertionSort (fun a b => overdueKey now b ≤ overdueKey now a)
    ((reviewQuestionsF l).filter (fun q => isOverdue q.nextReview now))

/-- dueTodayQuestions in ReviewQueue: not overdue but due for review. -/
def dueTodayQuestionsF (l : List Question) (now : DateTime) : List Question :=
  (reviewQuestionsF l).filter
    (fun q => !(isOverdue q.nextReview now) && isDueForReview q.nextReview now)

/-- The upcoming filter of ReviewQueue: reviewDate > new Date() and
reviewDate <= threeDaysFromNow, where threeDaysFromNow is now advanced by
three days with the time of day kept; both are instant comparisons. -/
def upcomingCheck (nextReview : DateStr) (now : DateTime) : Bool :=
  match nextReview with
  | DateStr.absent => false
  | s =>
      match parseFrontend s with
      | none => false
      | some t =>
          decide (toMillis now < toMillis t) &&
          decide (toMillis t ≤ toMillis { day := now.day + 3, ms := now.ms })

/-- The sort key of the upcoming section: new Date(nextReview).getTime(). -/
def upcomingKey (q : Question) : Int :=
  ((parseFrontend q.nextReview).map toMillis).getD 0

/-- upcomingQuestions in ReviewQueue: review questions inside the next three
days, sorted by review date ascending. -/
def upcomingQuestionsF (l : List Question) (now : DateTime) : List Question :=
  List.insertionSort (fun a b => upcomingKey a ≤ upcomingKey b)
    ((reviewQuestionsF l).filter (fun q => upcomingCheck q.nextReview now))

def wReviewedQ : Question :=
  { id := 7
    name := "two-sum"
    category := "arrays"
    leetcodeUrl := "u7"
    leetcodeDifficulty := none
    status := Status.under_review
    firstCompleted := some ⟨50, 0⟩
    lastReviewed := some ⟨90, 0⟩
    nextReview := DateStr.valid ⟨95, 0⟩
    reviewCount := 1
    difficultyHistory := [Difficulty.easy]
    notes := "" }

/-- The store operations that can touch an existing record after its
creation; each constructor carries the request data the service receives,
and complete and review also carry the instant used for now. -/
inductive StoreOp
  | update (data : UpdateQuestionRequest)
  | complete (rd : ReviewRequest) (now : DateTime)
  | review (rd : ReviewRequest) (now : DateTime)
  | reset
  deriving DecidableEq, Repr

/-- The record transition each store operation performs on the question it
finds; the store methods are definitionally these transitions applied at
the found record and written back in place. -/
def applyOp (q : Question) : StoreOp → Question
  | StoreOp.update data => updateRecord q data
  | StoreOp.complete rd now => completeRecord q rd now
  | StoreOp.review rd now => reviewRecord q rd now
  | StoreOp.reset => resetRecord q

def wOtherQ : Question :=
  { id := 9
    name := "three-sum"
    category := "arrays"
    leetcodeUrl := "u9"
    leetcodeDifficulty := none
    status := Status.not_started
    firstCompleted := none
    lastReviewed := none
    nextReview := DateStr.absent
    reviewCount := 0
    difficultyHistory := []
    notes := "" }

def wDupStore : Store := Store.mk [wReviewedQ, wOtherQ] 10

/-- The id-counter invariant maintained by the service: the counter is
positive and strictly above every stored id. -/
def StoreIdInv (s : Store) : Prop :=
  1 ≤ s.nextId ∧ ∀ q ∈ s.questions, q.id < s.nextId

def wCreateData : CreateQuestionRequest :=
  { name := "n3", category := "c", leetcodeUrl := "u3",
    leetcodeDifficulty := none, notes := none }

def cexIdQ1 : Question :=
  { id := 1, name := "a", category := "c", leetcodeUrl := "a1",
    leetcodeDifficulty := none, status := Status.not_started,
    firstCompleted := none, lastReviewed := none, nextReview := DateStr.absent,
    reviewCount := 0, difficultyHistory := [], notes := "" }

def cexIdQ2 : Question :=
  { id := 2, name := "b", category := "c", leetcodeUrl := "a2",
    leetcodeDifficulty := none, status := Status.not_started,
    firstCompleted := none, lastReviewed := none, nextReview := DateStr.absent,
    reviewCount := 0, difficultyHistory := [], notes := "" }

/-- Test fixture: an under-review record with a given id and a nextReview
instant. -/
def mkReviewQ (i : Nat) (t : DateTime) : Question :=
  { id := i
    name := "q"
    category := "c"
    leetcodeUrl := "u"
    leetcodeDifficulty := none
    status := Status.under_review
    firstCompleted := none
    lastReviewed := none
    nextReview := DateStr.valid t
    reviewCount := 1
    difficultyHistory := [Difficulty.easy]
    notes := "" }

def cQueueL : List Question :=
  [mkReviewQ 1 ⟨97, 0⟩, mkReviewQ 2 ⟨99, 0⟩, mkReviewQ 3 ⟨100, 0⟩, mkReviewQ 4 ⟨102, 0⟩]

def cQueueNow : DateTime := ⟨100, 50⟩

/-- C1: for difficulties easy and medium, calculateNextReview adds
table[min(reviewCount, 5)] days to the current date with the table
[1, 3, 7, 14, 30, 90]; for hard it always adds exactly 1 day; and in every
case the result lies on local midnight (00:00:00) of that day. -/
theorem calculateNextReview_spec :
    ∀ (reviewCount : Nat) (now : DateTime),
      calculateNextReview reviewCount Difficulty.easy now
          = { day := now.day + (([1, 3, 7, 14, 30, 90] : List Nat).getD (min reviewCount 5) 0 : Nat),
              ms := 0 }
      ∧ calculateNextReview reviewCount Difficulty.medium now
          = { day := now.day + (([1, 3, 7, 14, 30, 90] : List Nat).getD (min reviewCount 5) 0 : Nat),
              ms := 0 }
      ∧ calculateNextReview reviewCount Difficulty.hard now
          = { day := now.day + 1, ms := 0 }
      ∧ ∀ d : Difficulty, (calculateNextReview reviewCount d now).ms = 0 := by
  intro reviewCount now
  refine ⟨rfl, rfl, rfl, ?_⟩
  intro d
  cases d <;> rfl

/-- C2: for a question present in the store, reviewQuestion sets status to
needs_attention exactly for a hard rating and under_review otherwise, stamps
lastReviewedAt with now, increments reviewCount by one, appends the rating
to difficultyHistory, and schedules nextReviewAt from the review count held
before the increment. -/
theorem reviewQuestion_spec (s : Store) (id : Nat) (rd : ReviewRequest) (now : DateTime)
    (q : Question) (h : s.questions.find? (fun x => decide (x.id = id)) = some q) :
    ∃ s2 : Store, reviewQuestion s id rd now = (s2, Except.ok (reviewRecord q rd now))
      ∧ (reviewRecord q rd now).status
          = (if rd.difficulty = Difficulty.hard then Status.needs_attention
             else Status.under_review)
      ∧ (reviewRecord q rd now).lastReviewed = some now
      ∧ (reviewRecord q rd now).reviewCount = q.reviewCount + 1
      ∧ (reviewRecord q rd now).difficultyHistory = q.difficultyHistory ++ [rd.difficulty]
      ∧ (reviewRecord q rd now).nextReview
          = DateStr.valid (calculateNextReview q.reviewCount rd.difficulty now) := by
  refine ⟨{ s with questions := replaceById s.questions id (reviewRecord q rd now) },
    ?_, rfl, rfl, rfl, rfl, rfl⟩
  unfold reviewQuestion
  rw [h]

theorem reviewQuestion_spec_witness :
    (Store.mk [wReviewedQ] 8).questions.find? (fun x => decide (x.id = 7)) = some wReviewedQ
    ∧ ∃ s2 : Store,
        reviewQuestion (Store.mk [wReviewedQ] 8) 7 ⟨Difficulty.hard, none⟩ ⟨100, 0⟩
            = (s2, Except.ok (reviewRecord wReviewedQ ⟨Difficulty.hard, none⟩ ⟨100, 0⟩))
          ∧ (reviewRecord wReviewedQ ⟨Difficulty.hard, none⟩ ⟨100, 0⟩).status
              = (if (⟨Difficulty.hard, none⟩ : ReviewRequest).difficulty = Difficulty.hard
                 then Status.needs_attention else Status.under_review)
          ∧ (reviewRecord wReviewedQ ⟨Difficulty.hard, none⟩ ⟨100, 0⟩).lastReviewed
              = some ⟨100, 0⟩
          ∧ (reviewRecord wReviewedQ ⟨Difficulty.hard, none⟩ ⟨100, 0⟩).reviewCount
              = wReviewedQ.reviewCount + 1
          ∧ (reviewRecord wReviewedQ ⟨Difficulty.hard, none⟩ ⟨100, 0⟩).difficultyHistory
              = wReviewedQ.difficultyHistory ++ [Difficulty.hard]
          ∧ (reviewRecord wReviewedQ ⟨Difficulty.hard, none⟩ ⟨100, 0⟩).nextReview
              = DateStr.valid (calculateNextReview wReviewedQ.reviewCount Difficulty.hard ⟨100, 0⟩) :=
  ⟨by decide, reviewQuestion_spec (Store.mk [wReviewedQ] 8) 7 ⟨Difficulty.hard, none⟩ ⟨100, 0⟩
    wReviewedQ (by decide)⟩

/-- C10: for any question present in the store, in any status,
completeQuestion succeeds and overwrites reviewCount with exactly 1 and
difficultyHistory with the single supplied rating, discarding accumulated
history, while an already-set firstCompleted timestamp survives unchanged
and an unset one is stamped with now. -/
theorem completeQuestion_spec (s : Store) (id : Nat) (rd : ReviewRequest) (now : DateTime)
    (q : Question) (h : s.questions.find? (fun x => decide (x.id = id)) = some q) :
    ∃ s2 : Store, completeQuestion s id rd now = (s2, Except.ok (completeRecord q rd now))
      ∧ (completeRecord q rd now).reviewCount = 1
      ∧ (completeRecord q rd now).difficultyHistory = [rd.difficulty]
      ∧ (∀ t : DateTime, q.firstCompleted = some t →
          (completeRecord q rd now).firstCompleted = some t)
      ∧ (q.firstCompleted = none → (completeRecord q rd now).firstCompleted = some now) := by
  refine ⟨{ s with questions := replaceById s.questions id (completeRecord q rd now) },
    ?_, rfl, rfl, ?_, ?_⟩
  · unfold completeQuestion
    rw [h]
  · intro t ht
    simp [completeRecord, ht]
  · intro ht
    simp [completeRecord, ht]

theorem completeQuestion_spec_witness :
    (Store.mk [wReviewedQ] 8).questions.find? (fun x => decide (x.id = 7)) = some wReviewedQ
    ∧ ∃ s2 : Store,
        completeQuestion (Store.mk [wReviewedQ] 8) 7 ⟨Difficulty.medium, none⟩ ⟨100, 0⟩
            = (s2, Except.ok (completeRecord wReviewedQ ⟨Difficulty.medium, none⟩ ⟨100, 0⟩))
          ∧ (completeRecord wReviewedQ ⟨Difficulty.medium, none⟩ ⟨100, 0⟩).reviewCount = 1
          ∧ (completeRecord wReviewedQ ⟨Difficulty.medium, none⟩ ⟨100, 0⟩).difficultyHistory
              = [Difficulty.medium]
          ∧ (∀ t : DateTime, wReviewedQ.firstCompleted = some t →
              (completeRecord wReviewedQ ⟨Difficulty.medium, none⟩ ⟨100, 0⟩).firstCompleted = some t)
          ∧ (wReviewedQ.firstCompleted = none →
              (completeRecord wReviewedQ ⟨Difficulty.medium, none⟩ ⟨100, 0⟩).firstCompleted
                = some ⟨100, 0⟩) :=
  ⟨by decide, completeQuestion_spec (Store.mk [wReviewedQ] 8) 7 ⟨Difficulty.medium, none⟩ ⟨100, 0⟩
    wReviewedQ (by decide)⟩

lemma resetRecord_resetRecord (q : Question) : resetRecord (resetRecord q) = resetRecord q :=
  rfl

lemma find?_id_replaceById (qs : List Question) (id : Nat) (q newQ : Question)
    (h : qs.find? (fun x => decide (x.id = id)) = some q) (hid : newQ.id = id) :
    (replaceById qs id newQ).find? (fun x => decide (x.id = id)) = some newQ := by
  induction qs with
  | nil => simp at h
  | cons a rest ih =>
      by_cases ha : a.id = id
      · simp [replaceById, ha, List.find?_cons_of_pos, hid]
      · have h2 : rest.find? (fun x => decide (x.id = id)) = some q := by
          rw [List.find?_cons_of_neg] at h
          · exact h
          · simpa using ha
        rw [replaceById]
        simp only [if_neg ha]
        rw [List.find?_cons_of_neg]
        · exact ih h2
        · simpa using ha

lemma replaceById_idem (qs : List Question) (id : Nat) (newQ : Question)
    (hid : newQ.id = id) :
    replaceById (replaceById qs id newQ) id newQ = replaceById qs id newQ := by
  induction qs with
  | nil => rfl
  | cons a rest ih =>
      by_cases ha : a.id = id
      · simp [replaceById, ha, hid]
      · simp [replaceById, ha, ih]

/-- C9: resetting a question present in the store is idempotent, and the
terminal record after one reset has status not_started, cleared
firstCompleted, lastReviewed and nextReviewAt, zero reviewCount, empty
difficultyHistory, with id, name, category, url and notes preserved. -/
theorem resetQuestion_idempotent (s : Store) (id : Nat) (q : Question)
    (h : s.questions.find? (fun x => decide (x.id = id)) = some q) :
    resetQuestion (resetQuestion s id).1 id = resetQuestion s id
    ∧ (resetQuestion s id).2 = Except.ok (resetRecord q)
    ∧ (resetRecord q).status = Status.not_started
    ∧ (resetRecord q).firstCompleted = none
    ∧ (resetRecord q).lastReviewed = none
    ∧ (resetRecord q).nextReview = DateStr.absent
    ∧ (resetRecord q).reviewCount = 0
    ∧ (resetRecord q).difficultyHistory = []
    ∧ (resetRecord q).id = q.id
    ∧ (resetRecord q).name = q.name
    ∧ (resetRecord q).category = q.category
    ∧ (resetRecord q).leetcodeUrl = q.leetcodeUrl
    ∧ (resetRecord q).notes = q.notes := by
  have hqid : q.id = id := by
    have hp := List.find?_some h
    simpa using hp
  have hrid : (resetRecord q).id = id := by
    simpa [resetRecord] using hqid
  have heq : ∀ (s2 : Store) (q2 : Question),
      s2.questions.find? (fun x => decide (x.id = id)) = some q2 →
      resetQuestion s2 id
        = ({ s2 with questions := replaceById s2.questions id (resetRecord q2) },
           Except.ok (resetRecord q2)) := by
    intro s2 q2 h2
    unfold resetQuestion
    rw [h2]
  have hres := heq s q h
  refine ⟨?_, by rw [hres], rfl, rfl, rfl, rfl, rfl, rfl, rfl, rfl, rfl, rfl, rfl⟩
  rw [hres]
  rw [heq _ (resetRecord q) (find?_id_replaceById s.questions id q (resetRecord q) h hrid)]
  rw [resetRecord_resetRecord, replaceById_idem s.questions id (resetRecord q) hrid]

theorem resetQuestion_idempotent_witness :
    (Store.mk [wReviewedQ] 8).questions.find? (fun x => decide (x.id = 7)) = some wReviewedQ
    ∧ (resetQuestion (resetQuestion (Store.mk [wReviewedQ] 8) 7).1 7
          = resetQuestion (Store.mk [wReviewedQ] 8) 7
        ∧ (resetQuestion (Store.mk [wReviewedQ] 8) 7).2 = Except.ok (resetRecord wReviewedQ)
        ∧ (resetRecord wReviewedQ).status = Status.not_started
        ∧ (resetRecord wReviewedQ).firstCompleted = none
        ∧ (resetRecord wReviewedQ).lastReviewed = none
        ∧ (resetRecord wReviewedQ).nextReview = DateStr.absent
        ∧ (resetRecord wReviewedQ).reviewCount = 0
        ∧ (resetRecord wReviewedQ).difficultyHistory = []
        ∧ (resetRecord wReviewedQ).id = wReviewedQ.id
        ∧ (resetRecord wReviewedQ).name = wReviewedQ.name
        ∧ (resetRecord wReviewedQ).category = wReviewedQ.category
        ∧ (resetRecord wReviewedQ).leetcodeUrl = wReviewedQ.leetcodeUrl
        ∧ (resetRecord wReviewedQ).notes = wReviewedQ.notes) :=
  ⟨by decide, resetQuestion_idempotent (Store.mk [wReviewedQ] 8) 7 wReviewedQ (by decide)⟩

lemma countInv_foldl (ops : List StoreOp) (q : Question)
    (h : q.reviewCount = q.difficultyHistory.length) :
    (ops.foldl applyOp q).reviewCount = (ops.foldl applyOp q).difficultyHistory.length := by
  induction ops generalizing q with
  | nil => simpa using h
  | cons op rest ih =>
      apply ih
      cases op with
      | update data => simpa [applyOp, updateRecord] using h
      | complete rd now => simp [applyOp, completeRecord]
      | review rd now => simp [applyOp, reviewRecord, h]
      | reset => simp [applyOp, resetRecord]

/-- C5: a record created by the store has reviewCount 0 and empty history,
and after any finite sequence of update, complete, review and reset
transitions the review count always equals the length of the difficulty
history. -/
theorem reviewCount_matches_history (id : Nat) (data : CreateQuestionRequest)
    (ops : List StoreOp) :
    (ops.foldl applyOp (newQuestion id data)).reviewCount
      = (ops.foldl applyOp (newQuestion id data)).difficultyHistory.length :=
  countInv_foldl ops (newQuestion id data) rfl

lemma nrStatus_step (q : Question) (op : StoreOp)
    (h : (¬ q.nextReview = DateStr.absent)
        ↔ (q.status = Status.under_review ∨ q.status = Status.needs_attention)) :
    (¬ (applyOp q op).nextReview = DateStr.absent)
      ↔ ((applyOp q op).status = Status.under_review
          ∨ (applyOp q op).status = Status.needs_attention) := by
  cases op with
  | update data => simpa [applyOp, updateRecord] using h
  | complete rd now => simp [applyOp, completeRecord]
  | review rd now =>
      by_cases hd : rd.difficulty = Difficulty.hard <;>
        simp [applyOp, reviewRecord, hd]
  | reset => simp [applyOp, resetRecord]

lemma nrStatus_foldl (ops : List StoreOp) (q : Question)
    (h : (¬ q.nextReview = DateStr.absent)
        ↔ (q.status = Status.under_review ∨ q.status = Status.needs_attention)) :
    (¬ (ops.foldl applyOp q).nextReview = DateStr.absent)
      ↔ ((ops.foldl applyOp q).status = Status.under_review
          ∨ (ops.foldl applyOp q).status = Status.needs_attention) := by
  induction ops generalizing q with
  | nil => simpa using h
  | cons op rest ih => exact ih (applyOp q op) (nrStatus_step q op h)

/-- C6: along any finite sequence of store operations applied to a record
created by the store, nextReviewAt is set exactly when the status is
under_review or needs_attention; in particular a freshly created record and
a freshly reset record are not_started with nextReviewAt absent. -/
theorem nextReview_iff_status (id : Nat) (data : CreateQuestionRequest)
    (ops : List StoreOp) :
    ((¬ (ops.foldl applyOp (newQuestion id data)).nextReview = DateStr.absent)
      ↔ ((ops.foldl applyOp (newQuestion id data)).status = Status.under_review
          ∨ (ops.foldl applyOp (newQuestion id data)).status = Status.needs_attention))
    ∧ (newQuestion id data).status = Status.not_started
    ∧ (newQuestion id data).nextReview = DateStr.absent
    ∧ (∀ q : Question, (resetRecord q).status = Status.not_started
        ∧ (resetRecord q).nextReview = DateStr.absent) :=
  ⟨nrStatus_foldl ops (newQuestion id data) (by simp [newQuestion]),
   rfl, rfl, fun _ => ⟨rfl, rfl⟩⟩

/-- C7: a create whose url already belongs to some record, and an update on
a present record whose supplied non-empty url belongs to a different record,
both signal duplicateUrl and return the store exactly as it was, so no field
has been written and the id counter is not consumed; both checks run before
any write. -/
theorem duplicateUrl_rejected (s : Store) :
    (∀ data : CreateQuestionRequest,
        (∃ q ∈ s.questions, q.leetcodeUrl = data.leetcodeUrl) →
        createQuestion s data = (s, Except.error StoreError.duplicateUrl))
    ∧ (∀ (id : Nat) (data : UpdateQuestionRequest) (u : String),
        data.leetcodeUrl = some u → ¬ u = "" →
        (∃ q ∈ s.questions, q.id = id) →
        (∃ q2 ∈ s.questions, q2.leetcodeUrl = u ∧ ¬ q2.id = id) →
        updateQuestion s id data = (s, Except.error StoreError.duplicateUrl)) := by
  constructor
  · intro data hdup
    obtain ⟨q, hq, hurl⟩ := hdup
    have hsome : (s.questions.find?
        (fun x => decide (x.leetcodeUrl = data.leetcodeUrl))).isSome := by
      rw [List.find?_isSome]
      exact ⟨q, hq, by simpa using hurl⟩
    obtain ⟨q1, hq1⟩ := Option.isSome_iff_exists.mp hsome
    unfold createQuestion
    rw [hq1]
  · intro id data u hu hne hidp hdup
    obtain ⟨q0, hq0mem, hq0id⟩ := hidp
    have hsome0 : (s.questions.find? (fun x => decide (x.id = id))).isSome := by
      rw [List.find?_isSome]
      exact ⟨q0, hq0mem, by simpa using hq0id⟩
    obtain ⟨qf, hqf⟩ := Option.isSome_iff_exists.mp hsome0
    obtain ⟨q2, hq2mem, hq2url, hq2id⟩ := hdup
    have hsome2 : (s.questions.find?
        (fun x => decide (x.leetcodeUrl = u) && decide (¬ x.id = id))).isSome := by
      rw [List.find?_isSome]
      exact ⟨q2, hq2mem, by simp [hq2url, hq2id]⟩
    unfold updateQuestion
    rw [hqf, hu]
    simp [hne, hsome2]
    exact ⟨q2, hq2mem, hq2url, hq2id⟩

theorem duplicateUrl_rejected_witness :
    ((∃ q ∈ wDupStore.questions, q.leetcodeUrl = "u9")
      ∧ createQuestion wDupStore ⟨"x", "c", "u9", none, none⟩
          = (wDupStore, Except.error StoreError.duplicateUrl))
    ∧ ((⟨none, none, some "u9", none⟩ : UpdateQuestionRequest).leetcodeUrl = some "u9"
      ∧ ¬ "u9" = ""
      ∧ (∃ q ∈ wDupStore.questions, q.id = 7)
      ∧ (∃ q2 ∈ wDupStore.questions, q2.leetcodeUrl = "u9" ∧ ¬ q2.id = 7)
      ∧ updateQuestion wDupStore 7 ⟨none, none, some "u9", none⟩
          = (wDupStore, Except.error StoreError.duplicateUrl)) :=
  ⟨⟨⟨wOtherQ, by decide, rfl⟩,
    (duplicateUrl_rejected wDupStore).1 ⟨"x", "c", "u9", none, none⟩
      ⟨wOtherQ, by decide, rfl⟩⟩,
   ⟨rfl, by decide, ⟨wReviewedQ, by decide, rfl⟩, ⟨wOtherQ, by decide, by decide⟩,
    (duplicateUrl_rejected wDupStore).2 7 ⟨none, none, some "u9", none⟩ "u9" rfl (by decide)
      ⟨wReviewedQ, by decide, rfl⟩ ⟨wOtherQ, by decide, by decide⟩⟩⟩

/-- C4 counterexample: two timestamps on the same calendar day (day 100, at
0ms and at 6ms past midnight) are classified differently by the frontend
isDueForReview when now is day 100 at 5ms, because isDueForReview compares
full instants instead of stripped dates; this falsifies the claim that all
due classifiers depend only on the calendar date. -/
theorem isDueForReview_timeOfDay_cex :
    ((⟨100, 0⟩ : DateTime).day = (⟨100, 6⟩ : DateTime).day)
    ∧ isDueForReview (DateStr.valid ⟨100, 0⟩) ⟨100, 5⟩ = true
    ∧ isDueForReview (DateStr.valid ⟨100, 6⟩) ⟨100, 5⟩ = false := by
  decide

/-- C4 amended: the backend due classifiers depend only on the calendar day
of the stored date and treat an absent field, the string value zero and an
unparseable string as not due; the frontend isOverdue and getDaysOverdue are
also date-only; the frontend isDueForReview treats absent and unparseable
values as not due but compares full instants on the same day (see the
counterexample); nothing throws, every classifier is total. -/
theorem dueClassification_dateOnly :
    (∀ (today : Int) (t1 t2 : DateTime), t1.day = t2.day →
        dueCheck today (DateStr.valid t1) = dueCheck today (DateStr.valid t2)
        ∧ overdueCheck today (DateStr.valid t1) = overdueCheck today (DateStr.valid t2)
        ∧ dueTodayCheck today (DateStr.valid t1) = dueTodayCheck today (DateStr.valid t2))
    ∧ (∀ today : Int,
        dueCheck today DateStr.absent = false
        ∧ dueCheck today DateStr.zeroStr = false
        ∧ dueCheck today DateStr.invalid = false
        ∧ overdueCheck today DateStr.absent = false
        ∧ overdueCheck today DateStr.zeroStr = false
        ∧ overdueCheck today DateStr.invalid = false
        ∧ dueTodayCheck today DateStr.absent = false
        ∧ dueTodayCheck today DateStr.zeroStr = false
        ∧ dueTodayCheck today DateStr.invalid = false)
    ∧ (∀ (now t1 t2 : DateTime), t1.day = t2.day →
        isOverdue (DateStr.valid t1) now = isOverdue (DateStr.valid t2) now
        ∧ getDaysOverdue (DateStr.valid t1) now = getDaysOverdue (DateStr.valid t2) now)
    ∧ (∀ now : DateTime,
        isDueForReview DateStr.absent now = false
        ∧ isDueForReview DateStr.invalid now = false
        ∧ isOverdue DateStr.absent now = false
        ∧ isOverdue DateStr.invalid now = false
        ∧ getDaysOverdue DateStr.absent now = some 0
        ∧ getDaysOverdue DateStr.invalid now = none) := by
  refine ⟨?_, ?_, ?_, ?_⟩
  · intro today t1 t2 h
    refine ⟨?_, ?_, ?_⟩ <;> simp [dueCheck, overdueCheck, dueTodayCheck, parseBackend, h]
  · intro today
    exact ⟨rfl, rfl, rfl, rfl, rfl, rfl, rfl, rfl, rfl⟩
  · intro now t1 t2 h
    exact ⟨by simp [isOverdue, parseFrontend, h], by simp [getDaysOverdue, parseFrontend, h]⟩
  · intro now
    exact ⟨rfl, rfl, rfl, rfl, rfl, rfl⟩

theorem dueClassification_dateOnly_witness :
    ((⟨40, 11⟩ : DateTime).day = (⟨40, 22⟩ : DateTime).day
      ∧ dueCheck 41 (DateStr.valid ⟨40, 11⟩) = dueCheck 41 (DateStr.valid ⟨40, 22⟩)
      ∧ overdueCheck 41 (DateStr.valid ⟨40, 11⟩) = overdueCheck 41 (DateStr.valid ⟨40, 22⟩)
      ∧ dueTodayCheck 41 (DateStr.valid ⟨40, 11⟩) = dueTodayCheck 41 (DateStr.valid ⟨40, 22⟩))
    ∧ (isOverdue (DateStr.valid ⟨40, 11⟩) ⟨41, 7⟩ = isOverdue (DateStr.valid ⟨40, 22⟩) ⟨41, 7⟩
      ∧ getDaysOverdue (DateStr.valid ⟨40, 11⟩) ⟨41, 7⟩
          = getDaysOverdue (DateStr.valid ⟨40, 22⟩) ⟨41, 7⟩)
    ∧ getDaysOverdue DateStr.absent ⟨41, 7⟩ = some 0 :=
  ⟨⟨rfl, dueClassification_dateOnly.1 41 ⟨40, 11⟩ ⟨40, 22⟩ rfl⟩,
   dueClassification_dateOnly.2.2.1 ⟨41, 7⟩ ⟨40, 11⟩ ⟨40, 22⟩ rfl,
   (dueClassification_dateOnly.2.2.2 ⟨41, 7⟩).2.2.2.2.1⟩

lemma foldl_max_init (qs : List Question) (a : Nat) :
    a ≤ qs.foldl (fun m q => max m q.id) a := by
  induction qs generalizing a with
  | nil => exact le_refl a
  | cons b rest ih => exact le_trans (le_max_left a b.id) (ih (max a b.id))

lemma foldl_max_mem (qs : List Question) (a : Nat) (q : Question) (h : q ∈ qs) :
    q.id ≤ qs.foldl (fun m x => max m x.id) a := by
  induction qs generalizing a with
  | nil => cases h
  | cons b rest ih =>
      rcases List.mem_cons.mp h with hb | hr
      · subst hb
        exact le_trans (le_max_right a q.id) (foldl_max_init rest _)
      · exact ih _ hr

lemma initStore_inv (qs : List Question) : StoreIdInv (initStore qs) :=
  ⟨Nat.succ_le_succ (Nat.zero_le _),
   fun q hq => Nat.lt_succ_of_le (foldl_max_mem qs 0 q hq)⟩

lemma mem_replaceById (qs : List Question) (id : Nat) (newQ x : Question)
    (h : x ∈ replaceById qs id newQ) : x ∈ qs ∨ x = newQ := by
  induction qs with
  | nil => simp [replaceById] at h
  | cons a rest ih =>
      by_cases ha : a.id = id
      · rw [replaceById, if_pos ha] at h
        rcases List.mem_cons.mp h with h1 | h2
        · exact Or.inr h1
        · exact Or.inl (List.mem_cons_of_mem a h2)
      · rw [replaceById, if_neg ha] at h
        rcases List.mem_cons.mp h with h1 | h2
        · exact Or.inl (by simp [h1])
        · rcases ih h2 with h3 | h3
          · exact Or.inl (List.mem_cons_of_mem a h3)
          · exact Or.inr h3

lemma mem_removeById (qs : List Question) (id : Nat) (x : Question)
    (h : x ∈ removeById qs id) : x ∈ qs := by
  induction qs with
  | nil => simp [removeById] at h
  | cons a rest ih =>
      by_cases ha : a.id = id
      · rw [removeById, if_pos ha] at h
        exact List.mem_cons_of_mem a h
      · rw [removeById, if_neg ha] at h
        rcases List.mem_cons.mp h with h1 | h2
        · exact by simp [h1]
        · exact List.mem_cons_of_mem a (ih h2)

lemma inv_after_replace (s : Store) (id : Nat) (q updated : Question)
    (hfind : s.questions.find? (fun x => decide (x.id = id)) = some q)
    (hid : updated.id = q.id) (hinv : StoreIdInv s) :
    StoreIdInv { s with questions := replaceById s.questions id updated } := by
  refine ⟨hinv.1, ?_⟩
  intro x hx
  rcases mem_replaceById _ _ _ _ hx with h1 | h2
  · exact hinv.2 x h1
  · subst h2
    rw [hid]
    exact hinv.2 q (List.mem_of_find?_eq_some hfind)

lemma updateQuestion_inv (s : Store) (id : Nat) (data : UpdateQuestionRequest)
    (hinv : StoreIdInv s) : StoreIdInv (updateQuestion s id data).1 := by
  unfold updateQuestion
  cases hf : s.questions.find? (fun x => decide (x.id = id)) with
  | none => exact hinv
  | some q =>
      simp only
      split
      · exact hinv
      · exact inv_after_replace s id q (updateRecord q data) hf rfl hinv

lemma completeQuestion_inv (s : Store) (id : Nat) (rd : ReviewRequest) (now : DateTime)
    (hinv : StoreIdInv s) : StoreIdInv (completeQuestion s id rd now).1 := by
  unfold completeQuestion
  cases hf : s.questions.find? (fun x => decide (x.id = id)) with
  | none => exact hinv
  | some q => exact inv_after_replace s id q (completeRecord q rd now) hf rfl hinv

lemma reviewQuestion_inv (s : Store) (id : Nat) (rd : ReviewRequest) (now : DateTime)
    (hinv : StoreIdInv s) : StoreIdInv (reviewQuestion s id rd now).1 := by
  unfold reviewQuestion
  cases hf : s.questions.find? (fun x => decide (x.id = id)) with
  | none => exact hinv
  | some q => exact inv_after_replace s id q (reviewRecord q rd now) hf rfl hinv

lemma resetQuestion_inv (s : Store) (id : Nat)
    (hinv : StoreIdInv s) : StoreIdInv (resetQuestion s id).1 := by
  unfold resetQuestion
  cases hf : s.questions.find? (fun x => decide (x.id = id)) with
  | none => exact hinv
  | some q => exact inv_after_replace s id q (resetRecord q) hf rfl hinv

lemma deleteQuestion_inv (s : Store) (id : Nat) :
    (deleteQuestion s id).1.nextId = s.nextId
    ∧ (StoreIdInv s → StoreIdInv (deleteQuestion s id).1) := by
  unfold deleteQuestion
  cases hf : s.questions.find? (fun x => decide (x.id = id)) with
  | none => exact ⟨rfl, fun h => h⟩
  | some q =>
      refine ⟨rfl, fun hinv => ⟨hinv.1, ?_⟩⟩
      intro x hx
      exact hinv.2 x (mem_removeById _ _ _ hx)

lemma createQuestion_ok (s : Store) (data : CreateQuestionRequest) (s2 : Store) (q : Question)
    (hinv : StoreIdInv s) (h : createQuestion s data = (s2, Except.ok q)) :
    q.id = s.nextId ∧ 1 ≤ q.id ∧ (∀ x ∈ s.questions, ¬ x.id = q.id)
      ∧ s2.nextId = s.nextId + 1 ∧ StoreIdInv s2 := by
  unfold createQuestion at h
  cases hf : s.questions.find?
      (fun x => decide (x.leetcodeUrl = data.leetcodeUrl)) with
  | some qd =>
      rw [hf] at h
      simp at h
  | none =>
      rw [hf] at h
      have hs2 : Store.mk (s.questions ++ [newQuestion s.nextId data])
          (s.nextId + 1) = s2 := congrArg Prod.fst h
      have hq : (Except.ok (newQuestion s.nextId data) : Except StoreError Question)
          = Except.ok q := congrArg Prod.snd h
      have hq2 : newQuestion s.nextId data = q := by
        injection hq
      subst hs2
      subst hq2
      refine ⟨rfl, hinv.1, ?_, rfl, Nat.le_succ_of_le hinv.1, ?_⟩
      · intro x hx hcontra
        have := hinv.2 x hx
        rw [hcontra] at this
        exact absurd this (by simp [newQuestion])
      · intro x hx
        rcases List.mem_append.mp hx with h1 | h1
        · exact Nat.lt_succ_of_lt (hinv.2 x h1)
        · rcases List.mem_singleton.mp h1 with rfl
          exact Nat.lt_succ_of_le (le_refl _)

/-- C8 amended: a successful create assigns the id-counter value nextId,
which initialize sets to max(existing ids) + 1 (1 on an empty load) and
which each successful create advances by one; delete never lowers or
recomputes the counter, and every other operation preserves the counter
invariant, so every assigned id is a positive integer distinct from all
stored ids; on a store initialized empty the first create assigns id 1.
Because the counter is not recomputed from the records, a create after
deletions may assign an id larger than max(existing ids) + 1 (see the
counterexample). -/
theorem createQuestion_id_spec :
    (∀ qs : List Question, StoreIdInv (initStore qs))
    ∧ (∀ (s : Store) (data : CreateQuestionRequest) (s2 : Store) (q : Question),
        StoreIdInv s → createQuestion s data = (s2, Except.ok q) →
        q.id = s.nextId ∧ 1 ≤ q.id ∧ (∀ x ∈ s.questions, ¬ x.id = q.id)
          ∧ s2.nextId = s.nextId + 1 ∧ StoreIdInv s2)
    ∧ (∀ (s : Store) (id : Nat),
        (deleteQuestion s id).1.nextId = s.nextId
          ∧ (StoreIdInv s → StoreIdInv (deleteQuestion s id).1))
    ∧ (∀ (s : Store) (id : Nat) (data : UpdateQuestionRequest),
        StoreIdInv s → StoreIdInv (updateQuestion s id data).1)
    ∧ (∀ (s : Store) (id : Nat) (rd : ReviewRequest) (now : DateTime),
        StoreIdInv s →
        StoreIdInv (completeQuestion s id rd now).1
          ∧ StoreIdInv (reviewQuestion s id rd now).1)
    ∧ (∀ (s : Store) (id : Nat), StoreIdInv s → StoreIdInv (resetQuestion s id).1)
    ∧ (∀ data : CreateQuestionRequest,
        (createQuestion (initStore []) data).2 = Except.ok (newQuestion 1 data)) :=
  ⟨initStore_inv,
   fun s data s2 q hinv h => createQuestion_ok s data s2 q hinv h,
   fun s id => deleteQuestion_inv s id,
   fun s id data hinv => updateQuestion_inv s id data hinv,
   fun s id rd now hinv =>
     ⟨completeQuestion_inv s id rd now hinv, reviewQuestion_inv s id rd now hinv⟩,
   fun s id hinv => resetQuestion_inv s id hinv,
   fun _ => rfl⟩

theorem createQuestion_id_spec_witness :
    StoreIdInv (initStore [wReviewedQ, wOtherQ])
    ∧ (StoreIdInv wDupStore
        ∧ createQuestion wDupStore wCreateData
            = (Store.mk (wDupStore.questions ++ [newQuestion 10 wCreateData]) 11,
               Except.ok (newQuestion 10 wCreateData))
        ∧ ((newQuestion 10 wCreateData).id = wDupStore.nextId
            ∧ 1 ≤ (newQuestion 10 wCreateData).id
            ∧ (∀ x ∈ wDupStore.questions, ¬ x.id = (newQuestion 10 wCreateData).id)
            ∧ (Store.mk (wDupStore.questions ++ [newQuestion 10 wCreateData]) 11).nextId
                = wDupStore.nextId + 1
            ∧ StoreIdInv (Store.mk (wDupStore.questions ++ [newQuestion 10 wCreateData]) 11)))
    ∧ (createQuestion (initStore []) wCreateData).2 = Except.ok (newQuestion 1 wCreateData) :=
  ⟨createQuestion_id_spec.1 [wReviewedQ, wOtherQ],
   ⟨by constructor
       · decide
       · intro q hq
         fin_cases hq <;> decide,
    rfl,
    createQuestion_id_spec.2.1 wDupStore wCreateData
      (Store.mk (wDupStore.questions ++ [newQuestion 10 wCreateData]) 11)
      (newQuestion 10 wCreateData)
      (by constructor
          · decide
          · intro q hq
            fin_cases hq <;> decide)
      rfl⟩,
   createQuestion_id_spec.2.2.2.2.2.2 wCreateData⟩

/-- C8 counterexample: initialize with records of ids 1 and 2 (counter 3),
delete the record with the maximum id 2, then create; the code assigns id 3
from the counter, while the claimed rule max(existing ids) + 1 would give 2,
so create does not always assign max(existing ids) + 1 after records have
been deleted. -/
theorem createQuestion_id_cex :
    (createQuestion (deleteQuestion (initStore [cexIdQ1, cexIdQ2]) 2).1
        wCreateData).2.map Question.id = Except.ok 3
    ∧ maxId (deleteQuestion (initStore [cexIdQ1, cexIdQ2]) 2).1.questions + 1 = 2
    ∧ ¬ (3 : Nat) = 2 := by
  refine ⟨rfl, by decide, by decide⟩

lemma isOverdue_eq_true_iff (s : DateStr) (now : DateTime) :
    isOverdue s now = true ↔ ∃ t, parseFrontend s = some t ∧ t.day < now.day := by
  cases s <;> simp [isOverdue, parseFrontend]

lemma isDueForReview_eq_true_iff (s : DateStr) (now : DateTime) :
    isDueForReview s now = true
      ↔ ∃ t, parseFrontend s = some t ∧ toMillis t ≤ toMillis now := by
  cases s <;> simp [isDueForReview, parseFrontend]

lemma upcomingCheck_eq_true_iff (s : DateStr) (now : DateTime) :
    upcomingCheck s now = true
      ↔ ∃ t, parseFrontend s = some t ∧ toMillis now < toMillis t
          ∧ toMillis t ≤ toMillis { day := now.day + 3, ms := now.ms } := by
  cases s <;> simp [upcomingCheck, parseFrontend, and_assoc]

lemma mem_overdueQuestionsF (l : List Question) (now : DateTime) (q : Question) :
    q ∈ overdueQuestionsF l now
      ↔ q ∈ l ∧ reviewEligible q = true ∧ isOverdue q.nextReview now = true := by
  unfold overdueQuestionsF reviewQuestionsF
  rw [List.mem_insertionSort]
  simp [List.mem_filter, and_assoc]
  tauto

lemma mem_dueTodayQuestionsF (l : List Question) (now : DateTime) (q : Question) :
    q ∈ dueTodayQuestionsF l now
      ↔ q ∈ l ∧ reviewEligible q = true
          ∧ isOverdue q.nextReview now = false ∧ isDueForReview q.nextReview now = true := by
  unfold dueTodayQuestionsF reviewQuestionsF
  simp [List.mem_filter, and_assoc]
  tauto

lemma mem_upcomingQuestionsF (l : List Question) (now : DateTime) (q : Question) :
    q ∈ upcomingQuestionsF l now
      ↔ q ∈ l ∧ reviewEligible q = true ∧ upcomingCheck q.nextReview now = true := by
  unfold upcomingQuestionsF reviewQuestionsF
  rw [List.mem_insertionSort]
  simp [List.mem_filter, and_assoc]
  tauto

lemma toMillis_midnight (d : Int) : toMillis { day := d, ms := 0 } = d * 86400000 := by
  have h0 : (({ day := d, ms := 0 } : DateTime)).ms.val = 0 := rfl
  simp [toMillis, msPerDay, h0]

lemma overdueQuestionsF_sorted (l : List Question) (now : DateTime) :
    List.Pairwise (fun a b => ∀ ka kb : Int,
        getDaysOverdue a.nextReview now = some ka →
        getDaysOverdue b.nextReview now = some kb → kb ≤ ka)
      (overdueQuestionsF l now) := by
  haveI : IsTotal Question (fun a b => overdueKey now b ≤ overdueKey now a) :=
    ⟨fun a b => le_total _ _⟩
  haveI : IsTrans Question (fun a b => overdueKey now b ≤ overdueKey now a) :=
    ⟨fun a b c hab hbc => le_trans hbc hab⟩
  unfold overdueQuestionsF
  refine List.Pairwise.imp ?_
    (List.sorted_insertionSort (fun a b => overdueKey now b ≤ overdueKey now a)
      ((reviewQuestionsF l).filter (fun q => isOverdue q.nextReview now)))
  intro a b h ka kb hka hkb
  have ha : overdueKey now a = ka := by simp [overdueKey, hka]
  have hb : overdueKey now b = kb := by simp [overdueKey, hkb]
  rw [ha, hb] at h
  exact h

lemma upcomingQuestionsF_sorted (l : List Question) (now : DateTime) :
    List.Pairwise (fun a b => ∀ ta tb : DateTime,
        parseFrontend a.nextReview = some ta →
        parseFrontend b.nextReview = some tb → toMillis ta ≤ toMillis tb)
      (upcomingQuestionsF l now) := by
  haveI : IsTotal Question (fun a b => upcomingKey a ≤ upcomingKey b) :=
    ⟨fun a b => le_total _ _⟩
  haveI : IsTrans Question (fun a b => upcomingKey a ≤ upcomingKey b) :=
    ⟨fun a b c hab hbc => le_trans hab hbc⟩
  unfold upcomingQuestionsF
  refine List.Pairwise.imp ?_
    (List.sorted_insertionSort (fun a b => upcomingKey a ≤ upcomingKey b)
      ((reviewQuestionsF l).filter (fun q => upcomingCheck q.nextReview now)))
  intro a b h ta tb hta htb
  have ha : upcomingKey a = toMillis ta := by simp [upcomingKey, hta]
  have hb : upcomingKey b = toMillis tb := by simp [upcomingKey, htb]
  rw [ha, hb] at h
  exact h

lemma dueCheck_and_dueTodayCheck (today : Int) (sdt : DateStr) :
    (dueTodayCheck today sdt && dueCheck today sdt) = dueTodayCheck today sdt := by
  cases sdt <;> simp [dueCheck, dueTodayCheck, parseBackend]
  intro h
  omega

lemma dueCheck_and_overdueCheck (today : Int) (sdt : DateStr) :
    (overdueCheck today sdt && dueCheck today sdt) = overdueCheck today sdt := by
  cases sdt <;> simp [dueCheck, overdueCheck, parseBackend]
  intro h
  omega

/-- C3 amended: over the review-eligible records (status under_review) whose
nextReviewAt is midnight-normalized, as the scheduler writes it, the queue
groups are characterized by calendar day (overdue strictly before today, due
today exactly today, upcoming strictly after today and at most today plus
three days), any record outside under_review lands in no group, the three
groups are pairwise disjoint for every record set, the overdue group is
sorted by days-overdue descending, the upcoming group by review date
ascending, days-overdue is today minus the review date in whole days, and
the backend getDueQuestions returns exactly the records due today and the
records with review date strictly before today. Without midnight
normalization the calendar-day characterization of dueToday and upcoming
fails (see the counterexample): the upcoming filter compares raw instants. -/
theorem dueSet_partition_spec (l : List Question) (now : DateTime) :
    (∀ q ∈ l, q.status = Status.under_review → ∀ d : Int,
        q.nextReview = DateStr.valid { day := d, ms := 0 } →
        ((q ∈ overdueQuestionsF l now ↔ d < now.day)
          ∧ (q ∈ dueTodayQuestionsF l now ↔ d = now.day)
          ∧ (q ∈ upcomingQuestionsF l now ↔ (now.day < d ∧ d ≤ now.day + 3))))
    ∧ (∀ q ∈ l, ¬ q.status = Status.under_review →
        ¬ q ∈ overdueQuestionsF l now ∧ ¬ q ∈ dueTodayQuestionsF l now
          ∧ ¬ q ∈ upcomingQuestionsF l now)
    ∧ (∀ q : Question, ¬ (q ∈ overdueQuestionsF l now ∧ q ∈ dueTodayQuestionsF l now))
    ∧ (∀ q : Question, ¬ (q ∈ dueTodayQuestionsF l now ∧ q ∈ upcomingQuestionsF l now))
    ∧ (∀ q : Question, ¬ (q ∈ overdueQuestionsF l now ∧ q ∈ upcomingQuestionsF l now))
    ∧ List.Pairwise (fun a b => ∀ ka kb : Int,
        getDaysOverdue a.nextReview now = some ka →
        getDaysOverdue b.nextReview now = some kb → kb ≤ ka) (overdueQuestionsF l now)
    ∧ List.Pairwise (fun a b => ∀ ta tb : DateTime,
        parseFrontend a.nextReview = some ta →
        parseFrontend b.nextReview = some tb → toMillis ta ≤ toMillis tb)
        (upcomingQuestionsF l now)
    ∧ (∀ d : Int,
        getDaysOverdue (DateStr.valid { day := d, ms := 0 }) now = some (now.day - d))
    ∧ (∀ (qs : List Question) (today : Int),
        (getDueQuestions qs today).1 = qs.filter (fun q => dueTodayCheck today q.nextReview)
        ∧ (getDueQuestions qs today).2
            = qs.filter (fun q => overdueCheck today q.nextReview)) := by
  have hmsn := now.ms.isLt
  refine ⟨?_, ?_, ?_, ?_, ?_, overdueQuestionsF_sorted l now, upcomingQuestionsF_sorted l now,
    fun d => rfl, ?_⟩
  · intro q hq hst d hnr
    have helig : reviewEligible q = true := by simp [reviewEligible, hst, hnr]
    refine ⟨?_, ?_, ?_⟩
    · rw [mem_overdueQuestionsF]
      simp [hq, helig, isOverdue_eq_true_iff, hnr, parseFrontend]
    · rw [mem_dueTodayQuestionsF]
      simp only [hq, helig, true_and]
      rw [hnr]
      have ho : isOverdue (DateStr.valid { day := d, ms := 0 }) now
          = decide (d < now.day) := rfl
      have hd2 : isDueForReview (DateStr.valid { day := d, ms := 0 }) now
          = decide (toMillis { day := d, ms := 0 } ≤ toMillis now) := rfl
      rw [ho, hd2, toMillis_midnight]
      simp only [decide_eq_false_iff_not, decide_eq_true_eq, toMillis, msPerDay]
      omega
    · rw [mem_upcomingQuestionsF]
      simp only [hq, helig, true_and]
      rw [hnr]
      have hu : upcomingCheck (DateStr.valid { day := d, ms := 0 }) now
          = (decide (toMillis now < toMillis { day := d, ms := 0 }) &&
             decide (toMillis { day := d, ms := 0 }
               ≤ toMillis { day := now.day + 3, ms := now.ms })) := rfl
      rw [hu, toMillis_midnight]
      simp only [Bool.and_eq_true, decide_eq_true_eq, toMillis, msPerDay]
      omega
  · intro q hq hnst
    have hstat : reviewEligible q = true → q.status = Status.under_review := by
      intro helig
      simp only [reviewEligible, Bool.and_eq_true, decide_eq_true_eq] at helig
      exact helig.1
    refine ⟨?_, ?_, ?_⟩ <;> intro hmem
    · rw [mem_overdueQuestionsF] at hmem
      exact hnst (hstat hmem.2.1)
    · rw [mem_dueTodayQuestionsF] at hmem
      exact hnst (hstat hmem.2.1)
    · rw [mem_upcomingQuestionsF] at hmem
      exact hnst (hstat hmem.2.1)
  · rintro q ⟨h1, h2⟩
    rw [mem_overdueQuestionsF] at h1
    rw [mem_dueTodayQuestionsF] at h2
    rw [h2.2.2.1] at h1
    exact Bool.false_ne_true h1.2.2
  · rintro q ⟨h1, h2⟩
    rw [mem_dueTodayQuestionsF] at h1
    rw [mem_upcomingQuestionsF] at h2
    obtain ⟨t1, hp1, hle⟩ := (isDueForReview_eq_true_iff _ _).mp h1.2.2.2
    obtain ⟨t2, hp2, hlt, -⟩ := (upcomingCheck_eq_true_iff _ _).mp h2.2.2
    rw [hp1] at hp2
    have ht : t1 = t2 := by injection hp2
    rw [ht] at hle
    exact absurd hle (not_le.mpr hlt)
  · rintro q ⟨h1, h2⟩
    rw [mem_overdueQuestionsF] at h1
    rw [mem_upcomingQuestionsF] at h2
    obtain ⟨t1, hp1, hday⟩ := (isOverdue_eq_true_iff _ _).mp h1.2.2
    obtain ⟨t2, hp2, hlt, -⟩ := (upcomingCheck_eq_true_iff _ _).mp h2.2.2
    rw [hp1] at hp2
    have ht : t1 = t2 := by injection hp2
    rw [← ht] at hlt
    have hb1 := t1.ms.isLt
    simp only [toMillis, msPerDay] at hlt
    omega
  · intro qs today
    constructor
    · have hpair : (getDueQuestions qs today).1
          = ((qs.filter (fun q => dueCheck today q.nextReview)).filter
              (fun q => dueTodayCheck today q.nextReview)) := rfl
      rw [hpair, List.filter_filter]
      exact List.filter_congr (fun a _ => dueCheck_and_dueTodayCheck today a.nextReview)
    · have hpair : (getDueQuestions qs today).2
          = ((qs.filter (fun q => dueCheck today q.nextReview)).filter
              (fun q => overdueCheck today q.nextReview)) := rfl
      rw [hpair, List.filter_filter]
      exact List.filter_congr (fun a _ => dueCheck_and_overdueCheck today a.nextReview)

/-- C3 counterexample: a record whose nextReviewAt falls on the calendar day
of now (day 100) but one millisecond after midnight, evaluated at now equal
to midnight of day 100, is placed by the code in the upcoming group and not
in the due-today group, although its review date equals today; so the
groups are not characterized by calendar day as the claim states them for
every record set. -/
theorem dueSet_partition_cex :
    (mkReviewQ 1 ⟨100, 1⟩).nextReview = DateStr.valid { day := 100, ms := 1 }
    ∧ ((⟨100, 1⟩ : DateTime)).day = ((⟨100, 0⟩ : DateTime)).day
    ∧ dueTodayQuestionsF [mkReviewQ 1 ⟨100, 1⟩] ⟨100, 0⟩ = []
    ∧ upcomingQuestionsF [mkReviewQ 1 ⟨100, 1⟩] ⟨100, 0⟩ = [mkReviewQ 1 ⟨100, 1⟩] := by
  refine ⟨rfl, rfl, by decide, by decide⟩

theorem dueSet_partition_spec_witness :
    (mkReviewQ 1 ⟨97, 0⟩ ∈ overdueQuestionsF cQueueL cQueueNow ↔ (97 : Int) < 100)
    ∧ (mkReviewQ 3 ⟨100, 0⟩ ∈ dueTodayQuestionsF cQueueL cQueueNow ↔ (100 : Int) = 100)
    ∧ (mkReviewQ 4 ⟨102, 0⟩ ∈ upcomingQuestionsF cQueueL cQueueNow
        ↔ ((100 : Int) < 102 ∧ (102 : Int) ≤ 103)) :=
  ⟨((dueSet_partition_spec cQueueL cQueueNow).1 (mkReviewQ 1 ⟨97, 0⟩)
      (by decide) rfl 97 rfl).1,
   ((dueSet_partition_spec cQueueL cQueueNow).1 (mkReviewQ 3 ⟨100, 0⟩)
      (by decide) rfl 100 rfl).2.1,
   ((dueSet_partition_spec cQueueL cQueueNow).1 (mkReviewQ 4 ⟨102, 0⟩)
      (by decide) rfl 102 rfl).2.2⟩
